import Mathlib

/-!
Verification development for the in-memory tabular query engine of the
csv-query-mcp-server repository (an Express-style HTTP server offering
count / sum / group_by / filter / sample queries over CSV/Excel tables
loaded into a process-memory map).

The definitions below are shallow embeddings of the JavaScript/TypeScript
source functions:
  - `handleQueryLoadedCSV` and `findColumn` (src/http_server_code.ts),
  - `handleQueryData`, `convertToCSV`, `escapeCSVField` (revision file
    containing the drive-write handler),
  - the `uf_values` / `internet_cities` branches of `handleAnalyzeNFData`.

Modelling conventions:
  - JS numbers are idealised as rationals (`ℚ`); `parseFloat` is embedded
    as a decimal-literal prefix parser (`Infinity`/`NaN` literals and
    float rounding are outside the model).
  - Cell values are strings, numbers or null; `undefined` is represented
    by `Option.none` at lookup sites.  String(number) for non-integral
    numbers is idealised (only integral numbers appear in concrete
    inputs below).
  - `toLowerCase` is modelled on the ASCII range by `String.toLower`.
  - `limit` arguments are modelled as integers with the genuine
    `Array.prototype.slice` negative-end semantics.
-/

namespace CsvQ

/-- A scalar cell value of a row object: string, number, or null. -/
inductive Value where
  | str (s : String)
  | num (q : ℚ)
  | vnull
deriving DecidableEq

/-- A row object: association list from column key to value, in property
    (insertion) order.  JS objects have unique keys. -/
abbrev Row := List (String × Value)

/-- A table: ordered sequence of row objects. -/
abbrev RowTable := List Row

/-- Property read `row[k]`; `none` models JS `undefined`. -/
def rowGet (r : Row) (k : String) : Option Value :=
  (r.find? (fun p => p.1 == k)).map (·.2)

/-- `Object.keys(row)` — key list in property order. -/
def rowKeys (r : Row) : List String :=
  r.map (·.1)

/-- JS truthiness of a cell value (`""`, `0` and `null` are falsy). -/
def jsTruthy : Value → Bool
  | .str s => s ≠ ""
  | .num q => q ≠ 0
  | .vnull => false

/-- Decimal rendering of a rational, used to model `String(number)`.
    Faithful for integral values; non-integral values are idealised. -/
def ratToDecimalString (q : ℚ) : String :=
  if q.den = 1 then toString q.num else toString q

/-- JS `String(v)` conversion of a cell value. -/
def jsString : Value → String
  | .str s => s
  | .num q => ratToDecimalString q
  | .vnull => "null"

/-- JS `String(x || 0)` where `x` is a possibly-undefined cell value. -/
def jsStringOrZero (v : Option Value) : String :=
  match v with
  | some w => if jsTruthy w then jsString w else "0"
  | none => "0"

/-- JS `String(x || '')` where `x` is a possibly-undefined cell value. -/
def jsStringOrEmpty (v : Option Value) : String :=
  match v with
  | some w => if jsTruthy w then jsString w else ""
  | none => ""

/-- JS whitespace skipped by `parseFloat` (ASCII subset). -/
def isJsSpace (c : Char) : Bool :=
  c == ' ' || c == '\t' || c == '\n' || c == '\r'

/-- Numeric value of a digit string. -/
def digitsVal (ds : List Char) : Nat :=
  ds.foldl (fun a c => a * 10 + (c.toNat - 48)) 0

/-- Ten to an integer power, as a rational. -/
def pow10 (e : Int) : ℚ :=
  if 0 ≤ e then ((10 : ℚ) ^ e.toNat) else 1 / ((10 : ℚ) ^ (-e).toNat)

/-- The components of a successfully parsed decimal literal: sign, integer
    part, fraction digits with their count, and decimal exponent. -/
structure ParsedNum where
  sign : Int
  ipart : Nat
  fpart : Nat
  flen : Nat
  ex : Int
deriving DecidableEq

/-- `parseFloat` over a character list: skip leading whitespace, optional
    sign, digits with optional fraction and exponent; parses the longest
    valid prefix; `none` models `NaN`.  The numeric value is kept in
    component form so that the parse itself is kernel-computable. -/
def parseFloatRaw (l0 : List Char) : Option ParsedNum :=
  let l1 := l0.dropWhile isJsSpace
  let sgn : Int := match l1 with | '-' :: _ => -1 | _ => 1
  let l2 := match l1 with | '+' :: t => t | '-' :: t => t | _ => l1
  let ip := l2.takeWhile Char.isDigit
  let l3 := l2.dropWhile Char.isDigit
  let fp := match l3 with | '.' :: t => t.takeWhile Char.isDigit | _ => []
  let l4 := match l3 with | '.' :: t => t.dropWhile Char.isDigit | _ => l3
  if ip.isEmpty && fp.isEmpty then none
  else
    let ex : Int :=
      match l4 with
      | c :: t =>
        if c == 'e' || c == 'E' then
          let es : Int := match t with | '-' :: _ => -1 | _ => 1
          let t2 := match t with | '+' :: u => u | '-' :: u => u | _ => t
          let ed := t2.takeWhile Char.isDigit
          if ed.isEmpty then 0 else es * (digitsVal ed : Int)
        else 0
      | [] => 0
    some ⟨sgn, digitsVal ip, digitsVal fp, fp.length, ex⟩

/-- Rational value of a parsed decimal literal. -/
def parsedToRat (p : ParsedNum) : ℚ :=
  (p.sign : ℚ) * ((p.ipart : ℚ) + (p.fpart : ℚ) / pow10 (p.flen : Int)) * pow10 p.ex

/-- JS `parseFloat` on a string; `none` models `NaN`. -/
def parseFloatOpt (s : String) : Option ℚ :=
  (parseFloatRaw s.toList).map parsedToRat

/-- ASCII model of JS `toLowerCase`. -/
def strLower (s : String) : String :=
  (s.toList.map Char.toLower).asString

/-- `isNaN(v) ? 0 : v` applied to a `parseFloat` result. -/
def parseNumOrZero (s : String) : ℚ :=
  (parseFloatOpt s).getD 0

/-- JS `s.includes(pat)` — substring containment. -/
def strContains (s pat : String) : Bool :=
  (List.range (s.toList.length + 1)).any (fun i => pat.toList.isPrefixOf (s.toList.drop i))

/-- JS `l.slice(0, e)` with genuine negative-end semantics:
    a negative `e` counts from the end of the array. -/
def jsSlice0 {α : Type} (l : List α) (e : Int) : List α :=
  if e < 0 then l.take ((l.length : Int) + e).toNat else l.take e.toNat

/-- The `sum` operation of `handleQueryLoadedCSV`:
    `(data || []).reduce((sum, row) => sum + (isNaN(parseFloat(String(row[column] || 0))) ? 0 : ...), 0)`. -/
def sumOp (data : RowTable) (col : String) : ℚ :=
  data.foldl (fun s r => s + parseNumOrZero (jsStringOrZero (rowGet r col))) 0

/-- The `sample` operation: `data?.slice(0, Math.min(limit, 10)) || []`. -/
def sampleOp (data : RowTable) (limit : Int) : RowTable :=
  jsSlice0 data (min limit 10)

/-- The row predicate of the `filter` operation:
    `String(row[column] || '').toLowerCase().includes(String(value).toLowerCase())`. -/
def filterPred (col v : String) (r : Row) : Bool :=
  strContains (strLower (jsStringOrEmpty (rowGet r col))) (strLower v)

/-- The `filter` operation: keep matching rows, then `.slice(0, limit)`. -/
def filterOp (data : RowTable) (col v : String) (limit : Int) : RowTable :=
  jsSlice0 (data.filter (filterPred col v)) limit

/-- The `all` operation: `(data || []).slice(0, limit)`. -/
def allOp (data : RowTable) (limit : Int) : RowTable :=
  jsSlice0 data limit

/-! ### Column resolution (`findColumn`) -/

/-- One candidate of `findColumn`: exact key membership (`keys.includes`),
    then case-insensitive exact match, then case-insensitive substring
    match (`key.toLowerCase().includes(name.toLowerCase())`). -/
def matchCandidate (keys : List String) (name : String) : Option String :=
  if name ∈ keys then some name
  else
    match keys.find? (fun k => strLower k == strLower name) with
    | some k => some k
    | none => keys.find? (fun k => strContains (strLower k) (strLower name))

/-- The candidate loop of `findColumn`, in caller-supplied order. -/
def findColumnList (keys : List String) : List String → Option String
  | [] => none
  | n :: rest =>
    match matchCandidate keys n with
    | some k => some k
    | none => findColumnList keys rest

/-- `findColumn(row, possibleNames)`: `null` when the row is absent,
    otherwise the candidate cascade over `Object.keys(row)`. -/
def findColumn (row : Option Row) (possibleNames : List String) : Option String :=
  match row with
  | none => none
  | some r => findColumnList (rowKeys r) possibleNames

/-- Stage 1 of a candidate, as described by the specification: exact key
    membership. -/
def exactStage (keys : List String) (n : String) : Option String :=
  if n ∈ keys then some n else none

/-- Stage 2 of a candidate: first key equal to it case-insensitively. -/
def ciExactStage (keys : List String) (n : String) : Option String :=
  keys.find? (fun k => strLower k == strLower n)

/-- Stage 3 of a candidate: first key containing it case-insensitively. -/
def ciSubStage (keys : List String) (n : String) : Option String :=
  keys.find? (fun k => strContains (strLower k) (strLower n))

/-! ### Table-name resolution (`handleQueryData`) -/

/-- A stored entry: a flat table or a multi-sheet spreadsheet bundle. -/
inductive StoredVal where
  | table (rows : RowTable)
  | bundle (sheets : List (String × RowTable))
deriving DecidableEq

/-- The in-memory table store, in insertion order with unique keys
    (a JS `Map`). -/
abbrev DataStore := List (String × StoredVal)

/-- `Map.prototype.get`. -/
def mapGet {α : Type} (store : List (String × α)) (k : String) : Option α :=
  (store.find? (fun e => e.1 == k)).map (·.2)

/-- `Map.prototype.set`: overwrite in place, or append a new entry. -/
def mapSet {α : Type} (store : List (String × α)) (k : String) (v : α) :
    List (String × α) :=
  if (store.find? (fun e => e.1 == k)).isSome then
    store.map (fun e => if e.1 == k then (k, v) else e)
  else store ++ [(k, v)]

/-- `key.split('_')[0]` — the portion before the first underscore. -/
def keyBase (k : String) : String :=
  (k.splitOn "_").headD ""

/-- Remove the first occurrence of `pat` from a character list
    (JS `String.prototype.replace` with a string pattern and empty
    replacement). -/
def removeFirstChars : List Char → List Char → List Char
  | [], _ => []
  | c :: t, pat =>
    if pat.isPrefixOf (c :: t) then (c :: t).drop pat.length
    else c :: removeFirstChars t pat

/-- Remove the first occurrence of `pat` from `s`. -/
def removeFirstStr (s pat : String) : String :=
  (removeFirstChars s.toList pat.toList).asString

/-- `tableName.replace('.xlsx', '').replace('.xls', '')`. -/
def stripXlsExt (id : String) : String :=
  removeFirstStr (removeFirstStr id ".xlsx") ".xls"

/-- The queryable table names reported by the not-found error:
    keys whose stored value is a flat array. -/
def queryableNames (store : DataStore) : List String :=
  (store.map (·.1)).filter (fun k =>
    match mapGet store k with
    | some (.table _) => true
    | _ => false)

/-- The name-resolution part of `handleQueryData`: exact match, then the
    sheet-style fuzzy match, then the base-name (extension-stripped)
    match, else the not-found error carrying the queryable names. -/
def findTable (store : DataStore) (id : String) :
    Except (List String) (String × StoredVal) :=
  match mapGet store id with
  | some v => .ok (id, v)
  | none =>
    match store.find? (fun e => strContains e.1 id || strContains id (keyBase e.1)) with
    | some e => .ok e
    | none =>
      match store.find? (fun e => e.1 == stripXlsExt id || strContains e.1 (stripXlsExt id)) with
      | some e => .ok e
      | none => .error (queryableNames store)

/-- Resolution stage 1, as described by the specification: exact key. -/
def stage1 (store : DataStore) (id : String) : Option (String × StoredVal) :=
  store.find? (fun e => e.1 == id)

/-- Resolution stage 2: a stored key containing the identifier, or whose
    base (before the first underscore) is contained in the identifier. -/
def stage2 (store : DataStore) (id : String) : Option (String × StoredVal) :=
  store.find? (fun e => strContains e.1 id || strContains id (keyBase e.1))

/-- Resolution stage 3: retry after stripping `.xlsx` / `.xls` from the
    identifier — equality or containment of the stripped name. -/
def stage3 (store : DataStore) (id : String) : Option (String × StoredVal) :=
  store.find? (fun e => e.1 == stripXlsExt id || strContains e.1 (stripXlsExt id))

/-- The sheet-disambiguation step of `handleQueryData` applied to a found
    entry: a single-sheet bundle resolves to that sheet, renaming to
    `name_sheet`; a bundle with several sheets produces the error listing
    `id_sheet` options (built from the user-supplied identifier). -/
def disambiguate (id : String) (e : String × StoredVal) :
    Except (List String) (String × RowTable) :=
  match e.2 with
  | .table rows => .ok (e.1, rows)
  | .bundle sheets =>
    match sheets with
    | [(s, rows)] => .ok (e.1 ++ "_" ++ s, rows)
    | _ => .error (sheets.map (fun p => id ++ "_" ++ p.1))

/-- Full resolution of a query's table identifier: name resolution then
    sheet disambiguation. -/
def queryResolve (store : DataStore) (id : String) :
    Except (List String) (String × RowTable) :=
  match findTable store id with
  | .error e => .error e
  | .ok e => disambiguate id e

/-! ### `group_by` -/

/-- JS object-key coercion of a possibly-undefined cell value. -/
def keyOfVal (v : Option Value) : String :=
  match v with
  | none => "undefined"
  | some w => jsString w

/-- The group key of a row: `row[column]` coerced to a property key. -/
def groupKey (col : String) (r : Row) : String :=
  keyOfVal (rowGet r col)

/-- `if (!groups[key]) groups[key] = []; groups[key].push(row)` on an
    insertion-ordered association list. -/
def addToGroups : List (String × List Row) → String → Row → List (String × List Row)
  | [], k, r => [(k, [r])]
  | g :: t, k, r =>
    if g.1 = k then (g.1, g.2 ++ [r]) :: t else g :: addToGroups t k r

/-- The grouping loop of `group_by`. -/
def buildGroups (col : String) (T : RowTable) : List (String × List Row) :=
  T.foldl (fun gs r => addToGroups gs (groupKey col r) r) []

/-- `String(item.valor_total || item.valor || 0)` — the hard-coded
    fallback pair of monetary columns. -/
def fallbackValStr (r : Row) : String :=
  match rowGet r "valor_total" with
  | some v => if jsTruthy v then jsString v else jsStringOrZero (rowGet r "valor")
  | none => jsStringOrZero (rowGet r "valor")

/-- The total over one group's rows: sum of the fallback-column parse,
    non-numeric contributing 0. -/
def groupRowsTotal (rs : List Row) : ℚ :=
  rs.foldl (fun s r => s + parseNumOrZero (fallbackValStr r)) 0

/-- One element of the `group_by` result. -/
structure GroupEntry where
  key : String
  count : Nat
  total_value : ℚ
  items : List Row
deriving DecidableEq

/-- The comparator of the `group_by` sort:
    `(b.total_value || 0) - (a.total_value || 0)` — descending order by
    `total_value`. -/
def gbLE (a b : GroupEntry) : Prop :=
  b.total_value ≤ a.total_value

instance : DecidableRel gbLE :=
  fun a b => inferInstanceAs (Decidable (b.total_value ≤ a.total_value))

instance : IsTotal GroupEntry gbLE :=
  ⟨fun a b => le_total b.total_value a.total_value⟩

instance : IsTrans GroupEntry gbLE :=
  ⟨fun _ _ _ h1 h2 => le_trans h2 h1⟩

/-- The per-group result object:
    `{[column]: key, count, total_value, items: first 3 rows}`. -/
def mkGroupEntry (g : String × List Row) : GroupEntry :=
  ⟨g.1, g.2.length, groupRowsTotal g.2, g.2.take 3⟩

/-- The `group_by` operation: group rows by stringified value, map each
    group to its entry, and sort descending by `total_value` (a stable
    sort, as JS `Array.prototype.sort`). -/
def groupByOp (col : String) (T : RowTable) : List GroupEntry :=
  ((buildGroups col T).map mkGroupEntry).insertionSort gbLE

/-! ### The query dispatcher and the store state -/

/-- The store of `handleQueryLoadedCSV` (`Map<string, any[]>` — flat
    tables only in this revision). -/
abbrev QueryStore := List (String × RowTable)

/-- The destructured arguments of `handleQueryLoadedCSV`; `limit`
    defaults to 100 at the call boundary. -/
structure QueryArgs where
  table : String
  operation : String
  column : Option String
  value : Option String
  limit : Int

/-- A structured view of the dispatcher's result value. -/
inductive QueryResult where
  | count (n : Nat)
  | columns (cols : List String)
  | rows (rs : RowTable)
  | number (q : ℚ)
  | groups (gs : List GroupEntry)

/-- JS falsiness of the optional `column` parameter (`!column`). -/
def jsStrFalsy : Option String → Bool
  | none => true
  | some c => c == ""

/-- The operation dispatch of `handleQueryLoadedCSV` on the fetched data. -/
def queryOps (data : RowTable) (a : QueryArgs) : Except String QueryResult :=
  match a.operation with
  | "count" => .ok (.count data.length)
  | "get_columns" => .ok (.columns (match data with | [] => [] | r :: _ => rowKeys r))
  | "sample" => .ok (.rows (sampleOp data a.limit))
  | "sum" =>
    if jsStrFalsy a.column then .error "Column is required for sum operation"
    else .ok (.number (sumOp data (a.column.getD "")))
  | "group_by" =>
    if jsStrFalsy a.column then .error "Column is required for group_by operation"
    else .ok (.groups (groupByOp (a.column.getD "") data))
  | "filter" =>
    if jsStrFalsy a.column || a.value.isNone then
      .error "Column and value are required for filter operation"
    else .ok (.rows (filterOp data (a.column.getD "") (a.value.getD "") a.limit))
  | "all" => .ok (.rows (allOp data a.limit))
  | op => .error ("Unknown operation: " ++ op)

/-- `this.loadedData.has(name)` as an explicit state-passing read. -/
def storeHas (name : String) (s : QueryStore) : Bool × QueryStore :=
  ((mapGet s name).isSome, s)

/-- `this.loadedData.get(name)` as an explicit state-passing read. -/
def storeGet (name : String) (s : QueryStore) : Option RowTable × QueryStore :=
  (mapGet s name, s)

/-- `Array.from(this.loadedData.keys())` as an explicit state-passing read. -/
def storeKeys (s : QueryStore) : List String × QueryStore :=
  (s.map (·.1), s)

/-- `this.loadedData.set(name, rows)` — the state-mutating primitive used
    by the load path (not by queries). -/
def storeSetM (name : String) (rows : RowTable) (s : QueryStore) :
    Unit × QueryStore :=
  ((), mapSet s name rows)

/-- `handleQueryLoadedCSV` threaded through the explicit store state:
    membership check, the not-found error enumerating all keys, then the
    operation dispatch on the fetched table. -/
def handleQueryLoadedCSVM (a : QueryArgs) (s0 : QueryStore) :
    Except String QueryResult × QueryStore :=
  let hp := storeHas a.table s0
  if !hp.1 then
    let kp := storeKeys hp.2
    (.error ("Table " ++ a.table ++ " not found. Available tables: " ++
      String.intercalate ", " kp.1), kp.2)
  else
    let dp := storeGet a.table hp.2
    (queryOps (dp.1.getD []) a, dp.2)

/-! ### CSV serialization (`convertToCSV` / `escapeCSVField`) -/

/-- Ordered-set insertion used to collect headers (`Set` insertion order). -/
def insertKey (acc : List String) (k : String) : List String :=
  if k ∈ acc then acc else acc ++ [k]

/-- The header collection of `convertToCSV`: one pass over all rows,
    adding each unseen key at the end. -/
def gatherHeaders (data : RowTable) : List String :=
  data.foldl (fun acc r => (rowKeys r).foldl insertKey acc) []

/-- JS `s.includes(c)` for a single character. -/
def strHasChar (s : String) (c : Char) : Bool :=
  s.toList.contains c

/-- `stringValue.replace(/"/g, '""')` — double every quote. -/
def doubleQuotes (s : String) : String :=
  ((s.toList.map (fun c => if c = '"' then ['"', '"'] else [c])).flatten).asString

/-- The quoting condition of `escapeCSVField`: comma, quote, LF or CR. -/
def needsQuoting (s : String) : Bool :=
  strHasChar s ',' || strHasChar s '"' || strHasChar s '\n' || strHasChar s '\r'

/-- The string-level escape of `escapeCSVField`. -/
def escapeFieldStr (s : String) : String :=
  if needsQuoting s then "\"" ++ doubleQuotes s ++ "\"" else s

/-- `escapeCSVField(value)` on a cell: null / undefined become the empty
    field, anything else is stringified then escaped. -/
def escapeCSVField (v : Option Value) : String :=
  match v with
  | none => ""
  | some .vnull => ""
  | some w => escapeFieldStr (jsString w)

/-- `convertToCSV`: empty input gives the empty string; otherwise the
    escaped header line followed by one line per row, fields joined by
    commas and lines by newlines. -/
def convertToCSV (data : RowTable) : String :=
  if data.isEmpty then ""
  else
    let headers := gatherHeaders data
    let headerLine := String.intercalate "," (headers.map escapeFieldStr)
    let rowLines := data.map (fun r =>
      String.intercalate "," (headers.map (fun h => escapeCSVField (rowGet r h))))
    String.intercalate "\n" (headerLine :: rowLines)

/-- First-seen deduplication, written as the specification phrases it:
    keep each key's first occurrence, dropping later duplicates. -/
def dedupFirst : List String → List String
  | [] => []
  | x :: t => x :: dedupFirst (t.filter (fun y => decide (y ≠ x)))
termination_by l => l.length
decreasing_by
  simp only [List.length_cons]
  exact Nat.lt_succ_of_le (List.length_filter_le _ _)

/-- The serialization algorithm as the specification states it: header =
    union of all row keys in first-seen order; one field per header key
    with missing values empty; empty table serializes to the empty
    string. -/
def csvSpecSerialize (data : RowTable) : String :=
  match data with
  | [] => ""
  | _ =>
    let headers := dedupFirst ((data.map rowKeys).flatten)
    let headerLine := String.intercalate "," (headers.map escapeFieldStr)
    String.intercalate "\n" (headerLine :: data.map (fun r =>
      String.intercalate "," (headers.map (fun h => escapeCSVField (rowGet r h)))))

/-! ### The domain analyses (`handleAnalyzeNFData`) -/

/-- Outcome of a handler: a value, a thrown `Error` with its message, or a
    runtime `TypeError` (e.g. `Object.keys(undefined)`). -/
inductive JsOutcome (α : Type) where
  | ok (a : α)
  | thrown (msg : String)
  | typeError

/-- Truthiness of a looked-up numeric accumulator (`!ufGroups[uf]`). -/
def jsQTruthy (o : Option ℚ) : Bool :=
  match o with
  | some q => q ≠ 0
  | none => false

/-- `(x || 0)` on a looked-up numeric accumulator. -/
def jsQOr0 (o : Option ℚ) : ℚ :=
  match o with
  | some q => if q = 0 then 0 else q
  | none => 0

/-- One ranking entry of the `uf_values` analysis. -/
structure UFEntry where
  uf : String
  valor_total : ℚ
deriving DecidableEq

/-- The comparator of the `uf_values` ranking: descending by total. -/
def ufLE (a b : UFEntry) : Prop :=
  b.valor_total ≤ a.valor_total

instance : DecidableRel ufLE :=
  fun a b => inferInstanceAs (Decidable (b.valor_total ≤ a.valor_total))

/-- The successful payload of `uf_values`. -/
structure UFResult where
  top : Option UFEntry
  ranking : List UFEntry
  ufColumn : String
  valorColumn : String

/-- The accumulation body of `uf_values`: create the key at 0 when absent
    (or still falsy), then add the parsed value when it is a number. -/
def ufStep (ufC valC : String) (g : List (String × ℚ)) (nf : Row) :
    List (String × ℚ) :=
  let ufv := rowGet nf ufC
  let valorO := parseFloatOpt (jsStringOrZero (rowGet nf valC))
  let key := keyOfVal ufv
  let truthy := match ufv with | some v => jsTruthy v | none => false
  let g1 := if truthy && !(jsQTruthy (mapGet g key)) then mapSet g key 0 else g
  if truthy && valorO.isSome then mapSet g1 key (jsQOr0 (mapGet g1 key) + valorO.getD 0)
  else g1

/-- The `uf_values` branch of `handleAnalyzeNFData`.  When either column
    fails to resolve, the error branch rebuilds the message from
    `Object.keys(cabecalho[0])` — on an empty table that read itself is a
    `TypeError`, not the structured thrown message. -/
def analyzeUFValues (cab : RowTable) : JsOutcome UFResult :=
  let row0 := cab.head?
  let ufColumn := findColumn row0 ["uf_emitente", "uf", "uf emitente", "estado"]
  let valorColumn := findColumn row0 ["valor_total", "valor", "valor total", "total"]
  match ufColumn, valorColumn with
  | some ufC, some valC =>
    let sortedUFs :=
      ((cab.foldl (ufStep ufC valC) []).map (fun e => UFEntry.mk e.1 e.2)).insertionSort ufLE
    .ok ⟨sortedUFs.head?, sortedUFs, ufC, valC⟩
  | _, _ =>
    match row0 with
    | none => .typeError
    | some r =>
      .thrown ("Required columns not found. Available columns: " ++
        String.intercalate ", " (rowKeys r))

/-- One entry of the `internet_cities` ranking. -/
structure CityEntry where
  cidade : String
  operacoes : ℚ
deriving DecidableEq

/-- The comparator of the `internet_cities` ranking: descending by count. -/
def cityLE (a b : CityEntry) : Prop :=
  b.operacoes ≤ a.operacoes

instance : DecidableRel cityLE :=
  fun a b => inferInstanceAs (Decidable (b.operacoes ≤ a.operacoes))

/-- The successful payload of `internet_cities`. -/
structure CityResult where
  topCities : List CityEntry
  totalInternet : Nat
  totalNotas : Nat
  internetColumn : String
  cidadeColumn : String

/-- The via-internet row filter: lower-cased value equal to one of
    `s`, `sim`, `true`, `1`. -/
def isInternetRow (intC : String) (nf : Row) : Bool :=
  let s := strLower (jsStringOrEmpty (rowGet nf intC))
  s == "s" || s == "sim" || s == "true" || s == "1"

/-- The accumulation body of the city counts. -/
def cityStep (cidC : String) (g : List (String × ℚ)) (nf : Row) :
    List (String × ℚ) :=
  let cv := rowGet nf cidC
  let key := keyOfVal cv
  let truthy := match cv with | some v => jsTruthy v | none => false
  let g1 := if truthy && !(jsQTruthy (mapGet g key)) then mapSet g key 0 else g
  if truthy then mapSet g1 key (jsQOr0 (mapGet g1 key) + 1) else g1

/-- The `internet_cities` branch of `handleAnalyzeNFData`, with the same
    error-branch structure as `uf_values`. -/
def analyzeInternetCities (cab : RowTable) : JsOutcome CityResult :=
  let row0 := cab.head?
  let internetColumn := findColumn row0 ["internet", "operacao_internet", "operação internet", "via_internet"]
  let cidadeColumn := findColumn row0 ["cidade_emitente", "cidade", "cidade emitente", "municipio"]
  match internetColumn, cidadeColumn with
  | some intC, some cidC =>
    let internetOps := cab.filter (isInternetRow intC)
    let sortedCities :=
      jsSlice0 (((internetOps.foldl (cityStep cidC) []).map
        (fun e => CityEntry.mk e.1 e.2)).insertionSort cityLE) 2
    .ok ⟨sortedCities, internetOps.length, cab.length, intC, cidC⟩
  | _, _ =>
    match row0 with
    | none => .typeError
    | some r =>
      .thrown ("Required columns not found. Available columns: " ++
        String.intercalate ", " (rowKeys r))

/-- Lookup in an insertion-ordered group list (proof-side helper used to
    characterize `buildGroups`). -/
def lookupRows : List (String × List Row) → String → Option (List Row)
  | [], _ => none
  | g :: t, k => if g.1 = k then some g.2 else lookupRows t k

/-- Folding `+ f x` over a list equals the initial value plus the sum of
    the mapped list. -/
theorem foldl_add_eq_sum {α : Type} (f : α → ℚ) :
    ∀ (l : List α) (a : ℚ), l.foldl (fun s x => s + f x) a = a + (l.map f).sum
  | [], a => by simp
  | x :: t, a => by
    rw [List.foldl_cons, foldl_add_eq_sum f t (a + f x), List.map_cons, List.sum_cons]
    ring

/-- `slice(0, e)` with a non-negative end is a plain `take`. -/
theorem jsSlice0_of_nonneg {α : Type} (l : List α) {e : Int} (h : 0 ≤ e) :
    jsSlice0 l e = l.take e.toNat := by
  simp [jsSlice0, not_lt.mpr h]

/-- C2: `sum(T, column)` is the arithmetic sum over all rows of the numeric
    parse of the row's value at `column` (missing or falsy values read as
    `0`, a non-numeric parse contributes `0`, and the operation is a total
    function, never throwing); in particular a table whose values at
    `column` are entirely non-numeric strings sums to exactly `0`. -/
theorem sum_is_rowwise_numeric_parse_total (T : RowTable) (col : String) :
    sumOp T col = (T.map (fun r => parseNumOrZero (jsStringOrZero (rowGet r col)))).sum ∧
    ((∀ r ∈ T, ∃ s, rowGet r col = some (Value.str s) ∧ parseFloatOpt s = none) →
      sumOp T col = 0) := by
  constructor
  · rw [sumOp, foldl_add_eq_sum, zero_add]
  · intro hall
    rw [sumOp, foldl_add_eq_sum, zero_add]
    apply List.sum_eq_zero
    intro x hx
    rcases List.mem_map.mp hx with ⟨r, hr, rfl⟩
    rcases hall r hr with ⟨s, hget, hparse⟩
    rw [hget]
    by_cases hs : s = ""
    · subst hs
      show parseNumOrZero "0" = 0
      rw [parseNumOrZero, parseFloatOpt]
      have hraw : parseFloatRaw "0".toList = some ⟨1, 0, 0, 0, 0⟩ := rfl
      rw [hraw]
      norm_num [parsedToRat, pow10]
    · have hval : jsStringOrZero (some (Value.str s)) = s := by
        simp [jsStringOrZero, jsTruthy, jsString, hs]
      rw [hval]
      simp [parseNumOrZero, hparse]

/-- Witness for C2: a concrete two-row table whose `c` column holds only the
    non-numeric strings `"abc"` and `"x,y"` sums to `0`. -/
theorem sum_is_rowwise_numeric_parse_total_witness :
    sumOp [[("c", Value.str "abc")], [("c", Value.str "x,y")]] "c" = 0 :=
  (sum_is_rowwise_numeric_parse_total
      [[("c", Value.str "abc")], [("c", Value.str "x,y")]] "c").2
    (by
      intro r hr
      rcases hr with _ | ⟨_, hr⟩
      · exact ⟨"abc", by decide⟩
      rcases hr with _ | ⟨_, hr⟩
      · exact ⟨"x,y", by decide⟩
      · exact absurd hr (List.not_mem_nil r))

/-- C7 counterexample: with the requested limit `-1` against a 12-row table,
    `sample` returns 11 rows — not the first `min(-1, 10)` rows, and more
    than any claimed cap — because `slice(0, -1)` counts from the end. -/
theorem sample_negative_limit_breaks_cap :
    (sampleOp (List.replicate 12 [("a", Value.str "x")]) (-1)).length = 11 ∧
    ¬ (((sampleOp (List.replicate 12 [("a", Value.str "x")]) (-1)).length : Int)
        ≤ min (-1 : Int) 10) ∧
    sampleOp (List.replicate 12 [("a", Value.str "x")]) (-1) ≠
      (List.replicate 12 [("a", Value.str "x")]).take (min (-1 : Int) 10).toNat := by
  refine ⟨by decide, by decide, by decide⟩

/-- C7 amended: for every non-negative requested limit `n`, `sample(T, n)`
    returns the first `min(n, 10)` rows unmodified, hence at most
    `min(n, 10)` rows, and exactly `min(length T, 10)` rows when `n ≥ 10`. -/
theorem sample_cap_for_nonneg_limit (T : RowTable) (n : Int) (h : 0 ≤ n) :
    sampleOp T n = T.take (min n 10).toNat ∧
    (sampleOp T n).length ≤ (min n 10).toNat ∧
    (10 ≤ n → (sampleOp T n).length = min T.length 10) := by
  have hmin : (0 : Int) ≤ min n 10 := le_min h (by norm_num)
  have hEq : sampleOp T n = T.take (min n 10).toNat := jsSlice0_of_nonneg T hmin
  refine ⟨hEq, ?_, ?_⟩
  · rw [hEq, List.length_take]
    exact Nat.min_le_left _ _
  · intro h10
    rw [hEq, min_eq_right h10]
    rw [List.length_take]
    exact Nat.min_comm _ _

/-- Witness for C7 amended: applied to a concrete 12-row table with limit 20. -/
theorem sample_cap_for_nonneg_limit_witness :
    sampleOp (List.replicate 12 [("a", Value.str "x")]) 20 =
      (List.replicate 12 [("a", Value.str "x")]).take (min (20 : Int) 10).toNat ∧
    (sampleOp (List.replicate 12 [("a", Value.str "x")]) 20).length =
      min (List.replicate 12 [("a", Value.str "x")]).length 10 :=
  ⟨(sample_cap_for_nonneg_limit (List.replicate 12 [("a", Value.str "x")]) 20
      (by decide)).1,
   (sample_cap_for_nonneg_limit (List.replicate 12 [("a", Value.str "x")]) 20
      (by decide)).2.2 (by decide)⟩

/-- C8 counterexample: with limit `-1` and a 3-row table whose rows all
    match, filtering twice with the same arguments gives a different
    (shorter) sequence than filtering once: `slice(0, -1)` drops the last
    row on every application. -/
theorem filter_negative_limit_not_idempotent :
    filterOp (filterOp [[("c", Value.str "x")], [("c", Value.str "x")],
        [("c", Value.str "x")]] "c" "x" (-1)) "c" "x" (-1) ≠
      filterOp [[("c", Value.str "x")], [("c", Value.str "x")],
        [("c", Value.str "x")]] "c" "x" (-1) := by
  decide

/-- C8 amended: for every non-negative limit `n`, `filter` (substring match
    on the lower-cased value, truncated to `n` rows) is idempotent:
    re-filtering its result with the same `(col, v)` and the same limit
    returns the same sequence of rows. -/
theorem filter_idempotent_for_nonneg_limit (T : RowTable) (col v : String)
    (n : Int) (h : 0 ≤ n) :
    filterOp (filterOp T col v n) col v n = filterOp T col v n := by
  have h1 : filterOp T col v n = (T.filter (filterPred col v)).take n.toNat := by
    rw [filterOp, jsSlice0_of_nonneg _ h]
  have h2 : ((T.filter (filterPred col v)).take n.toNat).filter (filterPred col v)
      = (T.filter (filterPred col v)).take n.toNat := by
    apply List.filter_eq_self.mpr
    intro a ha
    exact List.of_mem_filter (List.take_subset _ _ ha)
  rw [h1, filterOp, h2, jsSlice0_of_nonneg _ h, List.take_take, Nat.min_self]

/-- Witness for C8 amended: applied to a concrete matching table with limit 5. -/
theorem filter_idempotent_for_nonneg_limit_witness :
    filterOp (filterOp [[("c", Value.str "x")]] "c" "x" 5) "c" "x" 5 =
      filterOp [[("c", Value.str "x")]] "c" "x" 5 :=
  filter_idempotent_for_nonneg_limit [[("c", Value.str "x")]] "c" "x" 5 (by decide)

/-- C6: `findColumn` tries the candidates in caller-supplied order; per
    candidate the three rules apply in order (exact key membership,
    case-insensitive exact match, case-insensitive substring match); the
    first key so found wins, and the result is `none` exactly when no
    candidate matches by any rule; the candidate list
    `["uf_emitente","uf","estado"]` against a row with key
    `"UF_Emitente"` resolves case-insensitively to `"UF_Emitente"`. -/
theorem findColumn_cascade (keys names : List String) :
    (∀ n, matchCandidate keys n =
      match exactStage keys n with
      | some k => some k
      | none =>
        match ciExactStage keys n with
        | some k => some k
        | none => ciSubStage keys n) ∧
    (findColumnList keys names = none ↔ ∀ n ∈ names, matchCandidate keys n = none) ∧
    (∀ n rest k, matchCandidate keys n = some k →
      findColumnList keys (n :: rest) = some k) ∧
    (∀ n rest, matchCandidate keys n = none →
      findColumnList keys (n :: rest) = findColumnList keys rest) ∧
    findColumn (some [("UF_Emitente", Value.str "SP")])
      ["uf_emitente", "uf", "estado"] = some "UF_Emitente" := by
  refine ⟨?_, ?_, ?_, ?_, by decide⟩
  · intro n
    by_cases h : n ∈ keys <;>
      simp [matchCandidate, exactStage, ciExactStage, ciSubStage, h]
  · induction names with
    | nil => simp [findColumnList]
    | cons n rest ih =>
      cases h : matchCandidate keys n with
      | none => simp [findColumnList, h, ih]
      | some k => simp [findColumnList, h]
  · intro n rest k h
    simp [findColumnList, h]
  · intro n rest h
    simp [findColumnList, h]

/-- Witness for C6: the first-match rule applied at the concrete
    key set and candidate list of the specification's scenario. -/
theorem findColumn_cascade_witness :
    findColumnList ["UF_Emitente"] ["uf_emitente", "uf", "estado"] =
      some "UF_Emitente" :=
  (findColumn_cascade ["UF_Emitente"] ["uf_emitente", "uf", "estado"]).2.2.1
    "uf_emitente" ["uf", "estado"] "UF_Emitente" (by decide)

/-- C3: table-identifier resolution tries the stages in order with the
    first matching stage winning — exact key, then substring/base fuzzy
    match, then the `.xlsx`/`.xls`-stripped retry — and with no match at
    any stage fails carrying exactly the currently queryable table
    names. -/
theorem table_resolution_stage_order (store : DataStore) (id : String) :
    findTable store id =
      match stage1 store id with
      | some e => Except.ok e
      | none =>
        match stage2 store id with
        | some e => Except.ok e
        | none =>
          match stage3 store id with
          | some e => Except.ok e
          | none => Except.error (queryableNames store) := by
  unfold findTable mapGet stage1 stage2 stage3
  cases h1 : store.find? (fun e => e.1 == id) with
  | none => simp [h1]
  | some e =>
    have he : e.1 = id := by simpa using List.find?_some h1
    simp only [h1, Option.map_some']
    rw [← he]

/-- C4: a stored entry resolving to a single-sheet bundle is transparently
    replaced by that sheet's table with effective name `name_sheet`; a
    bundle with two or more sheets makes the query fail with the error
    listing the per-sheet qualified names, never silently picking one;
    and full resolution is name resolution followed by exactly this
    disambiguation. -/
theorem sheet_bundle_disambiguation :
    (∀ (id name s : String) (rows : RowTable),
      disambiguate id (name, StoredVal.bundle [(s, rows)]) =
        Except.ok (name ++ "_" ++ s, rows)) ∧
    (∀ (id name s1 s2 : String) (r1 r2 : RowTable)
        (rest : List (String × RowTable)),
      disambiguate id (name, StoredVal.bundle ((s1, r1) :: (s2, r2) :: rest)) =
        Except.error (((s1, r1) :: (s2, r2) :: rest).map
          (fun p => id ++ "_" ++ p.1))) ∧
    (∀ (store : DataStore) (id : String) (e : String × StoredVal),
      findTable store id = Except.ok e →
        queryResolve store id = disambiguate id e) ∧
    (∀ (id name : String) (rows : RowTable),
      disambiguate id (name, StoredVal.table rows) = Except.ok (name, rows)) := by
  refine ⟨fun id name s rows => rfl, fun id name s1 s2 r1 r2 rest => rfl,
    ?_, fun id name rows => rfl⟩
  intro store id e h
  unfold queryResolve
  rw [h]

/-- Witness for C4: resolution of a two-sheet bundle under its exact key
    goes through the disambiguation step. -/
theorem sheet_bundle_disambiguation_witness :
    queryResolve [("data.xlsx", StoredVal.bundle [("Sheet1", []), ("Sheet2", [])])]
        "data.xlsx" =
      disambiguate "data.xlsx"
        ("data.xlsx", StoredVal.bundle [("Sheet1", []), ("Sheet2", [])]) :=
  sheet_bundle_disambiguation.2.2.1
    [("data.xlsx", StoredVal.bundle [("Sheet1", []), ("Sheet2", [])])]
    "data.xlsx"
    ("data.xlsx", StoredVal.bundle [("Sheet1", []), ("Sheet2", [])]) rfl

/-- C9: executing a query — any operation, any store state, any argument
    combination, whether it returns a result or an error — leaves the
    table store unchanged: the final state equals the initial one, hence
    the registered names and every stored table's contents are
    identical. -/
theorem query_operations_leave_store_unchanged (a : QueryArgs) (s : QueryStore) :
    (handleQueryLoadedCSVM a s).2 = s ∧
    ((handleQueryLoadedCSVM a s).2).map (·.1) = s.map (·.1) ∧
    (∀ n, mapGet (handleQueryLoadedCSVM a s).2 n = mapGet s n) := by
  have h : (handleQueryLoadedCSVM a s).2 = s := by
    unfold handleQueryLoadedCSVM storeHas storeKeys storeGet
    dsimp only
    split <;> rfl
  exact ⟨h, by rw [h], fun n => by rw [h]⟩

/-- Folding an element-wise fold over a list of lists is a fold over the
    flattened list. -/
theorem foldl_foldl_eq_foldl_flatten {α β : Type} (f : β → α → β) :
    ∀ (L : List (List α)) (b : β),
      L.foldl (fun acc l => l.foldl f acc) b = L.flatten.foldl f b
  | [], _ => rfl
  | l :: L, b => by
    rw [List.foldl_cons, foldl_foldl_eq_foldl_flatten f L (l.foldl f b),
      List.flatten_cons, List.foldl_append]

/-- Unfolding equation of `dedupFirst` on a cons cell. -/
theorem dedupFirst_cons (x : String) (t : List String) :
    dedupFirst (x :: t) = x :: dedupFirst (t.filter (fun y => decide (y ≠ x))) := by
  rw [dedupFirst.eq_def]

/-- Ordered-set insertion folding equals appending the first-seen
    deduplication of the unseen elements. -/
theorem foldl_insertKey_eq_dedupFirst :
    ∀ (l acc : List String),
      l.foldl insertKey acc = acc ++ dedupFirst (l.filter (fun y => decide (y ∉ acc)))
  | [], acc => by simp [dedupFirst]
  | x :: t, acc => by
    rw [List.foldl_cons]
    by_cases hx : x ∈ acc
    · have hstep : insertKey acc x = acc := by simp [insertKey, hx]
      rw [hstep, foldl_insertKey_eq_dedupFirst t acc, List.filter_cons]
      simp [hx]
    · have hstep : insertKey acc x = acc ++ [x] := by simp [insertKey, hx]
      have hpred : ∀ y, (decide (y ≠ x) && decide (y ∉ acc)) = decide (y ∉ acc ++ [x]) := by
        intro y
        by_cases h1 : y = x <;> by_cases h2 : y ∈ acc <;> simp [h1, h2]
      rw [hstep, foldl_insertKey_eq_dedupFirst t (acc ++ [x]), List.filter_cons]
      simp only [hx, not_false_iff, decide_True, if_true]
      rw [List.append_assoc, List.singleton_append]
      show acc ++ x :: dedupFirst (t.filter fun y => decide (y ∉ acc ++ [x])) = _
      rw [dedupFirst_cons]
      congr 2
      rw [List.filter_filter]
      exact congrArg dedupFirst (List.filter_congr (fun y _ => (hpred y).symm))

/-- The header pass of `convertToCSV` computes exactly the first-seen
    deduplication of all row keys. -/
theorem gatherHeaders_eq_dedupFirst (data : RowTable) :
    gatherHeaders data = dedupFirst ((data.map rowKeys).flatten) := by
  rw [gatherHeaders, show data.foldl (fun acc r => (rowKeys r).foldl insertKey acc) []
      = (data.map rowKeys).foldl (fun acc l => l.foldl insertKey acc) []
    from (List.foldl_map _ _ _ _).symm]
  rw [foldl_foldl_eq_foldl_flatten, foldl_insertKey_eq_dedupFirst, List.nil_append]
  congr 1
  rw [show ((data.map rowKeys).flatten.filter fun y => decide (y ∉ ([] : List String)))
      = (data.map rowKeys).flatten.filter (fun _ => true)
    from List.filter_congr (fun y _ => by simp)]
  exact List.filter_true _

/-- C5: serialization equals the specification's algorithm — header line
    is the union of all row keys in first-seen order, one field per
    header key per row with missing values empty, fields joined by commas
    and rows by newlines; the empty table gives the empty string; and a
    field is quote-wrapped with internal quotes doubled exactly when it
    contains a comma, quote, LF or CR. -/
theorem csv_serialization_matches_spec (data : RowTable) :
    convertToCSV data = csvSpecSerialize data ∧
    convertToCSV [] = "" ∧
    (∀ s, needsQuoting s = false → escapeFieldStr s = s) ∧
    (∀ s, needsQuoting s = true →
      escapeFieldStr s = "\"" ++ doubleQuotes s ++ "\"") := by
  refine ⟨?_, rfl, fun s h => by simp [escapeFieldStr, h],
    fun s h => by simp [escapeFieldStr, h]⟩
  cases data with
  | nil => rfl
  | cons r rs =>
    simp only [convertToCSV, csvSpecSerialize, List.isEmpty_cons]
    rw [gatherHeaders_eq_dedupFirst]
    simp

/-- Witness for C5: the equality at a concrete two-row table with
    differing key sets, and the escape rule at quoted and plain fields. -/
theorem csv_serialization_matches_spec_witness :
    convertToCSV [[("a", Value.str "1")], [("b", Value.str "x,y")]] =
      csvSpecSerialize [[("a", Value.str "1")], [("b", Value.str "x,y")]] ∧
    escapeFieldStr "x,y" = "\"" ++ doubleQuotes "x,y" ++ "\"" ∧
    escapeFieldStr "plain" = "plain" :=
  ⟨(csv_serialization_matches_spec [[("a", Value.str "1")], [("b", Value.str "x,y")]]).1,
   (csv_serialization_matches_spec []).2.2.2 "x,y" (by decide),
   (csv_serialization_matches_spec []).2.2.1 "plain" (by decide)⟩

/-- Adding a row under key `k` appends it to that key's group. -/
theorem lookupRows_addToGroups_self :
    ∀ (gs : List (String × List Row)) (k : String) (r : Row),
      lookupRows (addToGroups gs k r) k = some ((lookupRows gs k).getD [] ++ [r])
  | [], k, r => by simp [addToGroups, lookupRows]
  | g :: t, k, r => by
    by_cases h : g.1 = k
    · simp [addToGroups, lookupRows, h]
    · simp [addToGroups, lookupRows, h, lookupRows_addToGroups_self t k r]

/-- Adding a row under key `k` leaves every other key's group unchanged. -/
theorem lookupRows_addToGroups_ne :
    ∀ (gs : List (String × List Row)) (k k' : String) (r : Row), k' ≠ k →
      lookupRows (addToGroups gs k r) k' = lookupRows gs k'
  | [], k, k', r, h => by simp [addToGroups, lookupRows, Ne.symm h]
  | g :: t, k, k', r, h => by
    by_cases hg : g.1 = k
    · subst hg
      simp [addToGroups, lookupRows, Ne.symm h]
    · simp [addToGroups, lookupRows, hg, lookupRows_addToGroups_ne t k k' r h]

/-- The key list after adding a row: unchanged when the key exists,
    otherwise extended at the end. -/
theorem keys_addToGroups :
    ∀ (gs : List (String × List Row)) (k : String) (r : Row),
      (addToGroups gs k r).map (·.1) =
        if k ∈ gs.map (·.1) then gs.map (·.1) else gs.map (·.1) ++ [k]
  | [], k, r => by simp [addToGroups]
  | g :: t, k, r => by
    by_cases h : g.1 = k
    · subst h
      simp [addToGroups]
    · by_cases hm : k ∈ t.map (·.1) <;>
        simp [addToGroups, h, keys_addToGroups t k r, hm, List.mem_cons, Ne.symm h]

/-- Adding a row preserves distinctness of the group keys. -/
theorem nodup_keys_addToGroups (gs : List (String × List Row)) (k : String)
    (r : Row) (h : (gs.map (·.1)).Nodup) :
    ((addToGroups gs k r).map (·.1)).Nodup := by
  rw [keys_addToGroups]
  by_cases hm : k ∈ gs.map (·.1)
  · simp [hm, h]
  · simp only [hm, if_false, ite_false]
    rw [List.nodup_append]
    exact ⟨h, List.nodup_singleton k, by simp [List.disjoint_singleton, hm]⟩

/-- Adding a row permutes the grouped rows into the old contents plus the
    new row. -/
theorem flatten_addToGroups_perm :
    ∀ (gs : List (String × List Row)) (k : String) (r : Row),
      List.Perm ((addToGroups gs k r).map (·.2)).flatten
        ((gs.map (·.2)).flatten ++ [r])
  | [], k, r => by simp [addToGroups]
  | g :: t, k, r => by
    by_cases h : g.1 = k
    · simp only [addToGroups, if_pos h, List.map_cons, List.flatten_cons]
      have h1 : (g.2 ++ [r]) ++ (t.map (·.2)).flatten
          = g.2 ++ ([r] ++ (t.map (·.2)).flatten) := by rw [List.append_assoc]
      have h2 : List.Perm (g.2 ++ ([r] ++ (t.map (·.2)).flatten))
          (g.2 ++ ((t.map (·.2)).flatten ++ [r])) :=
        List.Perm.append_left _ List.perm_append_comm
      have h3 : g.2 ++ ((t.map (·.2)).flatten ++ [r])
          = (g.2 ++ (t.map (·.2)).flatten) ++ [r] := by rw [List.append_assoc]
      rw [h1, ← h3]
      exact h2
    · simp only [addToGroups, if_neg h, List.map_cons, List.flatten_cons]
      have h2 : List.Perm (g.2 ++ ((addToGroups t k r).map (·.2)).flatten)
          (g.2 ++ ((t.map (·.2)).flatten ++ [r])) :=
        List.Perm.append_left _ (flatten_addToGroups_perm t k r)
      have h3 : g.2 ++ ((t.map (·.2)).flatten ++ [r])
          = (g.2 ++ (t.map (·.2)).flatten) ++ [r] := by rw [List.append_assoc]
      rw [← h3]
      exact h2

/-- Characterization of the grouping fold: each key's accumulated rows
    are exactly the filter of the scanned rows by that key, in order. -/
theorem dLookup_buildGroups (col : String) :
    ∀ (T : RowTable) (gs : List (String × List Row)) (k : String),
      (lookupRows (T.foldl (fun gs r => addToGroups gs (groupKey col r) r) gs) k).getD []
        = (lookupRows gs k).getD [] ++ T.filter (fun r => groupKey col r == k)
  | [], gs, k => by simp
  | r :: T, gs, k => by
    rw [List.foldl_cons, dLookup_buildGroups col T _ k]
    by_cases h : groupKey col r = k
    · subst h
      rw [lookupRows_addToGroups_self]
      simp [List.filter_cons]
    · rw [lookupRows_addToGroups_ne _ _ _ _ (Ne.symm h)]
      simp [List.filter_cons, h]

/-- The grouping fold keeps the group keys pairwise distinct. -/
theorem nodup_keys_buildGroups (col : String) :
    ∀ (T : RowTable) (gs : List (String × List Row)),
      (gs.map (·.1)).Nodup →
      ((T.foldl (fun gs r => addToGroups gs (groupKey col r) r) gs).map (·.1)).Nodup
  | [], _, h => h
  | r :: T, gs, h => by
    rw [List.foldl_cons]
    exact nodup_keys_buildGroups col T _ (nodup_keys_addToGroups _ _ _ h)

/-- The grouping fold redistributes exactly the scanned rows. -/
theorem flatten_buildGroups_perm (col : String) :
    ∀ (T : RowTable) (gs : List (String × List Row)),
      List.Perm ((T.foldl (fun gs r => addToGroups gs (groupKey col r) r) gs).map (·.2)).flatten
        ((gs.map (·.2)).flatten ++ T)
  | [], gs => by simp
  | r :: T, gs => by
    rw [List.foldl_cons]
    have h1 := flatten_buildGroups_perm col T (addToGroups gs (groupKey col r) r)
    have h2 : List.Perm (((addToGroups gs (groupKey col r) r).map (·.2)).flatten ++ T)
        (((gs.map (·.2)).flatten ++ [r]) ++ T) :=
      List.Perm.append_right T (flatten_addToGroups_perm gs _ r)
    have hEq : ((gs.map (·.2)).flatten ++ [r]) ++ T
        = (gs.map (·.2)).flatten ++ (r :: T) := by rw [List.append_assoc]; rfl
    rw [← hEq]
    exact h1.trans h2

/-- With distinct keys, every listed group is found by key lookup. -/
theorem lookupRows_of_mem :
    ∀ (gs : List (String × List Row)), (gs.map (·.1)).Nodup →
      ∀ e ∈ gs, lookupRows gs e.1 = some e.2 := by
  intro gs
  induction gs with
  | nil => exact fun _ e he => absurd he (List.not_mem_nil e)
  | cons g t ih =>
    intro h e he
    rw [List.map_cons, List.nodup_cons] at h
    rcases List.mem_cons.mp he with rfl | hm
    · simp [lookupRows]
    · have hne : ¬ g.1 = e.1 := fun hh => h.1 (hh ▸ List.mem_map_of_mem (·.1) hm)
      simp only [lookupRows, if_neg hne]
      exact ih h.2 e hm

/-- A key looks up to nothing exactly when it is not a group key. -/
theorem lookupRows_eq_none_iff :
    ∀ (gs : List (String × List Row)) (k : String),
      lookupRows gs k = none ↔ k ∉ gs.map (·.1) := by
  intro gs k
  induction gs with
  | nil => simp [lookupRows]
  | cons g t ih =>
    by_cases h : g.1 = k
    · simp [lookupRows, h]
    · simp only [lookupRows, if_neg h, ih, List.map_cons, List.mem_cons]
      constructor
      · intro hnot hc
        rcases hc with hc | hc
        · exact h hc.symm
        · exact hnot hc
      · intro hnot hc
        exact hnot (Or.inr hc)

/-- C1: `group_by` partitions the rows of the table by the stringified
    value at the column: every result entry's fields come from exactly
    the rows with its key (its count, its `valor_total`-else-`valor`
    fallback sum with non-numeric treated as 0, and its first 3 rows as
    items), the keys are pairwise distinct, every row's key appears, the
    group counts sum to the row count, and the sequence is sorted
    non-increasingly by `total_value`. -/
theorem group_by_partitions_and_sorts (T : RowTable) (col : String) :
    (∀ g ∈ groupByOp col T,
      g.count = (T.filter (fun r => groupKey col r == g.key)).length ∧
      g.total_value = ((T.filter (fun r => groupKey col r == g.key)).map
        (fun r => parseNumOrZero (fallbackValStr r))).sum ∧
      g.items = (T.filter (fun r => groupKey col r == g.key)).take 3) ∧
    ((groupByOp col T).map GroupEntry.key).Nodup ∧
    (∀ r ∈ T, groupKey col r ∈ (groupByOp col T).map GroupEntry.key) ∧
    ((groupByOp col T).map GroupEntry.count).sum = T.length ∧
    List.Sorted gbLE (groupByOp col T) := by
  have hperm : List.Perm (groupByOp col T) ((buildGroups col T).map mkGroupEntry) :=
    List.perm_insertionSort gbLE _
  have hnodup : ((buildGroups col T).map (·.1)).Nodup :=
    nodup_keys_buildGroups col T [] (by simp)
  have hlook : ∀ k, (lookupRows (buildGroups col T) k).getD []
      = T.filter (fun r => groupKey col r == k) := by
    intro k
    have h := dLookup_buildGroups col T [] k
    rw [buildGroups]
    rw [h]
    simp [lookupRows]
  have hkeys : ((buildGroups col T).map mkGroupEntry).map GroupEntry.key
      = (buildGroups col T).map (·.1) := by
    rw [List.map_map]; rfl
  refine ⟨?_, ?_, ?_, ?_, ?_⟩
  · intro g hg
    rcases List.mem_map.mp (hperm.mem_iff.mp hg) with ⟨g0, hg0, rfl⟩
    have hsome : lookupRows (buildGroups col T) g0.1 = some g0.2 :=
      lookupRows_of_mem _ hnodup g0 hg0
    have hrows : g0.2 = T.filter (fun r => groupKey col r == g0.1) := by
      have h := hlook g0.1
      rw [hsome] at h
      simpa using h
    refine ⟨?_, ?_, ?_⟩
    · show g0.2.length = (T.filter (fun r => groupKey col r == g0.1)).length
      rw [hrows]
    · show groupRowsTotal g0.2 = ((T.filter (fun r => groupKey col r == g0.1)).map
        (fun r => parseNumOrZero (fallbackValStr r))).sum
      rw [hrows, groupRowsTotal, foldl_add_eq_sum, zero_add]
    · show g0.2.take 3 = (T.filter (fun r => groupKey col r == g0.1)).take 3
      rw [hrows]
  · have h := hperm.map GroupEntry.key
    rw [hkeys] at h
    exact h.nodup_iff.mpr hnodup
  · intro r hr
    have hne : lookupRows (buildGroups col T) (groupKey col r) ≠ none := by
      intro hnone
      have h0 := hlook (groupKey col r)
      rw [hnone] at h0
      have hmem : r ∈ T.filter (fun r' => groupKey col r' == groupKey col r) :=
        List.mem_filter.mpr ⟨hr, by simp⟩
      rw [← h0] at hmem
      exact absurd hmem (List.not_mem_nil r)
    have hmem : groupKey col r ∈ (buildGroups col T).map (·.1) := by
      by_contra hn
      exact hne ((lookupRows_eq_none_iff _ _).mpr hn)
    have h := hperm.map GroupEntry.key
    rw [hkeys] at h
    exact h.mem_iff.mpr hmem
  · have hcnt : ((buildGroups col T).map mkGroupEntry).map GroupEntry.count
        = ((buildGroups col T).map (·.2)).map List.length := by
      rw [List.map_map, List.map_map]; rfl
    have hs := (hperm.map GroupEntry.count).sum_eq
    rw [hs, hcnt, ← List.length_flatten]
    have hp := flatten_buildGroups_perm col T []
    rw [buildGroups]
    rw [hp.length_eq]
    simp
  · exact List.sorted_insertionSort gbLE _

/-- Witness for C1: the partition facts discharged at a concrete
    single-row table grouped by its `cat` column. -/
theorem group_by_partitions_and_sorts_witness :
    (mkGroupEntry ("a", [[("cat", Value.str "a")]])).count =
      ([[("cat", Value.str "a")]].filter
        (fun r => groupKey "cat" r == (mkGroupEntry ("a", [[("cat", Value.str "a")]])).key)).length ∧
    groupKey "cat" [("cat", Value.str "a")] ∈
      (groupByOp "cat" [[("cat", Value.str "a")]]).map GroupEntry.key :=
  ⟨((group_by_partitions_and_sorts [[("cat", Value.str "a")]] "cat").1
      (mkGroupEntry ("a", [[("cat", Value.str "a")]]))
      (List.mem_cons_self _ _)).1,
   (group_by_partitions_and_sorts [[("cat", Value.str "a")]] "cat").2.2.1
      [("cat", Value.str "a")] (List.mem_cons_self _ _)⟩

/-- C10: on a registered but empty header table, the `uf_values` and
    `internet_cities` branches do not produce the structured
    "Required columns not found" message their error branch intends:
    column resolution returns null (there is no first row) and rebuilding
    the message reads the key set of the nonexistent first row, a runtime
    `TypeError` rather than a recoverable structured error. -/
theorem empty_header_table_error_branch_crashes :
    analyzeUFValues [] = JsOutcome.typeError ∧
    analyzeInternetCities [] = JsOutcome.typeError ∧
    (∀ m, analyzeUFValues [] ≠ JsOutcome.thrown m) ∧
    (∀ m, analyzeInternetCities [] ≠ JsOutcome.thrown m) := by
  have h1 : analyzeUFValues [] = JsOutcome.typeError := rfl
  have h2 : analyzeInternetCities [] = JsOutcome.typeError := rfl
  exact ⟨h1, h2, fun m h => JsOutcome.noConfusion (h1.symm.trans h),
    fun m h => JsOutcome.noConfusion (h2.symm.trans h)⟩

end CsvQ
